import Mathlib

/-!
Shallow embedding of the shape classifier of `src/visuals.js` (the full router
variant: `routeVisual` together with its extractor helpers), and proofs of the
specification claims about it.

Modelling conventions:
* JavaScript values are modelled by `JSVal α`, where `α` is the type used for
  JS numbers.  Claims that only involve structural routing and rational
  arithmetic are instantiated at `α := ℚ`; the claims about the trigonometric
  polar-to-rectangular conversion are instantiated at `α := ℝ` with
  `Real.cos` / `Real.sin` standing for `Math.cos` / `Math.sin`.  `Math.cos`
  and `Math.sin` are opaque library functions in the source, so the embedded
  definitions take them as parameters `cosF sinF : α → α`.
* Property access `a.b` throws a `TypeError` when the base is `null` or
  `undefined` and otherwise never throws; optional chaining `a?.b` never
  throws.  Code paths that can throw are modelled in the `Except Unit` monad
  (`.error ()` is a thrown `TypeError`); code paths that cannot throw on any
  input reachable in the router are modelled as pure functions using
  `optField`.
* `NaN`-producing arithmetic on non-numeric operands (JS coercion) is outside
  the embedded fragment: the one place the renderer computes with payload
  values (`renderCurveFit`'s coefficient synthesis) is modelled on all-numeric
  inputs and returns `none` otherwise.  All claims touching it use numeric
  inputs only.
-/

namespace Visuals

/-- A JavaScript value: `undefined`, `null`, booleans, numbers (type `α`),
strings, arrays explicitly enumerating their elements, and plain objects as
ordered association lists of own enumerable string-keyed fields (JS objects
enumerate string keys in insertion order; the claims use non-integer-like
keys, for which this is exact). -/
inductive JSVal (α : Type) where
  | undefined
  | null
  | bool (b : Bool)
  | num (x : α)
  | str (s : String)
  | arr (elems : List (JSVal α))
  | obj (fields : List (String × JSVal α))

variable {α : Type}

/-- `v === undefined` on constructors. -/
def isUndef : JSVal α → Bool
  | .undefined => true
  | _ => false

/-- `v` is `null` or `undefined` (the bases on which property access throws). -/
def isNullish : JSVal α → Bool
  | .undefined => true
  | .null => true
  | _ => false

/-- `typeof v === "number"`. -/
def isNum : JSVal α → Bool
  | .num _ => true
  | _ => false

/-- `typeof v === "string"`. -/
def isStr : JSVal α → Bool
  | .str _ => true
  | _ => false

/-- `Array.isArray(v)`. -/
def isArr : JSVal α → Bool
  | .arr _ => true
  | _ => false

/-- `Array.isArray(v)`, returning the elements on success. -/
def asArr : JSVal α → Option (List (JSVal α))
  | .arr xs => some xs
  | _ => none

/-- Source `isPlainObject`: `obj && typeof obj === "object" && !Array.isArray(obj)`.
Truthiness rules out `null`; arrays are excluded explicitly; of the remaining
modelled values only plain objects have `typeof _ === "object"`. -/
def isPlainObject : JSVal α → Bool
  | .obj _ => true
  | _ => false

/-- Property read `v[k]` on a base that is not `null`/`undefined` (also the
value of `v?.[k]` when `v` is nullish is covered by the catch-all):
objects yield the field or `undefined`; primitives and arrays yield
`undefined` for the (non-index) keys the router reads. -/
def optField (v : JSVal α) (k : String) : JSVal α :=
  match v with
  | .obj fs => (fs.lookup k).getD .undefined
  | _ => .undefined

/-- Plain (non-optional) property read `v[k]`: throws a `TypeError` when `v`
is `null`/`undefined`, otherwise `optField`. -/
def getFieldE (v : JSVal α) (k : String) : Except Unit (JSVal α) :=
  if isNullish v then .error () else .ok (optField v k)

/-- JS truthiness of a value (`NaN` is absent from the model; `α`-numbers are
falsy exactly when equal to `0`). -/
def jsTruthy [Zero α] [DecidableEq α] : JSVal α → Bool
  | .undefined => false
  | .null => false
  | .bool b => b
  | .num x => decide (x ≠ 0)
  | .str s => decide (s ≠ "")
  | .arr _ => true
  | .obj _ => true

/-- `Object.entries(v)` for the non-nullish bases it is applied to: insertion
order of fields for objects, index/element pairs for arrays, index/character
pairs for strings, `[]` for the remaining primitives. -/
def jsEntries : JSVal α → List (String × JSVal α)
  | .obj fs => fs
  | .arr xs => xs.enum.map (fun iv => (toString iv.1, iv.2))
  | .str s => s.data.enum.map (fun ic => (toString ic.1, .str ⟨[ic.2]⟩))
  | _ => []

/-- `Array.prototype.every` with a predicate that may throw: short-circuits on
the first `false`, propagates the first thrown error. -/
def jsEveryE (p : JSVal α → Except Unit Bool) : List (JSVal α) → Except Unit Bool
  | [] => .ok true
  | x :: xs =>
    match p x with
    | .error e => .error e
    | .ok true => jsEveryE p xs
    | .ok false => .ok false

/-! ## The extractors (source lines 333-505) -/

/-- Source `extractScalarMap`: collects the top-level fields with numeric
values whose key is not in the `ignore` list `["topic", "samples", "phasor"]`,
preserving encounter order. -/
def extractScalarMap (d : JSVal α) : List (String × α) :=
  (jsEntries d).filterMap (fun kv =>
    if kv.1 ∈ ["topic", "samples", "phasor"] then none
    else match kv.2 with
      | .num x => some (kv.1, x)
      | _ => none)

/-- A text block produced by `extractTextBlocks`: either an all-string array
kept as-is, or a nested plain object (the source serializes it with
`JSON.stringify`; the serialized text is presentation-only and the object is
carried unserialized here). -/
inductive TextBlock (α : Type) where
  | strings (key : String) (items : List (JSVal α))
  | nested (key : String) (v : JSVal α)

/-- Source `extractTextBlocks`: for each top-level entry in order, an array
whose elements are all strings becomes a `strings` block, a plain object under
a key other than `"solution"` becomes a `nested` block. -/
def extractTextBlocks (d : JSVal α) : List (TextBlock α) :=
  (jsEntries d).filterMap (fun kv =>
    match kv.2 with
    | .arr xs => if xs.all isStr then some (.strings kv.1 xs) else none
    | .obj fs => if kv.1 = "solution" then none else some (.nested kv.1 (.obj fs))
    | _ => none)

/-- Source `extractMatrix` inner test on one value: a non-empty array whose
first element is an array and all of whose elements are arrays. -/
def matrixPred : JSVal α → Option (List (JSVal α))
  | .arr rows =>
    match rows with
    | [] => none
    | r0 :: _ => if isArr r0 && rows.all isArr then some rows else none
  | _ => none

/-- Source `extractMatrix`: the first top-level entry (in encounter order)
whose value passes `matrixPred`, together with its key. -/
def extractMatrix (d : JSVal α) : Option (String × List (JSVal α)) :=
  (jsEntries d).findSome? (fun kv => (matrixPred kv.2).map (fun rows => (kv.1, rows)))

/-- Result of `extractComplex`: the `roots` array passed through as-is, or a
single rectangular complex number. -/
inductive ComplexOut (α : Type) where
  | roots (rs : List (JSVal α))
  | single (re im : α)

/-- Element test of the `roots` case of `extractComplex`:
`typeof r.real === "number" && typeof r.imag === "number"`.  The property
accesses throw when the element is `null`/`undefined`. -/
def rootOkE (r : JSVal α) : Except Unit Bool :=
  match getFieldE r "real" with
  | .error e => .error e
  | .ok re =>
    if isNum re then
      match getFieldE r "imag" with
      | .error e => .error e
      | .ok im => .ok (isNum im)
    else .ok false

/-- The rectangular and polar cases of `extractComplex`, reached when the
`roots` case did not return: a numeric `real`/`imag` pair is passed through
untransformed, else a numeric `modulus`/`argument` pair is converted to
rectangular form with `real = modulus * cos(argument)`,
`imag = modulus * sin(argument)`. -/
def complexRest [Mul α] (cosF sinF : α → α) (d : JSVal α) : Option (ComplexOut α) :=
  match optField d "real", optField d "imag" with
  | .num r, .num i => some (.single r i)
  | _, _ =>
    match optField d "modulus", optField d "argument" with
    | .num m, .num a => some (.single (m * cosF a) (m * sinF a))
    | _, _ => none

/-- Source `extractComplex`: the `roots` case first (an array under `"roots"`
all of whose elements have numeric `real` and `imag`), then the rectangular
case, then the polar case.  The element checks of the `roots` case can throw. -/
def extractComplexE [Mul α] (cosF sinF : α → α) (d : JSVal α) :
    Except Unit (Option (ComplexOut α)) :=
  match getFieldE d "roots" with
  | .error e => .error e
  | .ok roots =>
    match roots with
    | .arr rs =>
      match jsEveryE rootOkE rs with
      | .error e => .error e
      | .ok true => .ok (some (.roots rs))
      | .ok false => .ok (complexRest cosF sinF d)
    | _ => .ok (complexRest cosF sinF d)

/-- Source `extractPolynomial`: requires `coefficients` to be an array whose
elements are all numbers; `about` defaults to `0` when absent or non-numeric.
The coefficient array is passed through as-is. -/
def extractPolynomial [Zero α] (d : JSVal α) : Option (List (JSVal α) × α) :=
  match optField d "coefficients" with
  | .arr cs =>
    if cs.all isNum then
      some (cs, match optField d "about" with | .num a => a | _ => 0)
    else none
  | _ => none

/-- Element test of case 2 of `extractConvergence`:
`typeof it.iteration === "number" && typeof it.value === "number"`.  The
property accesses throw when the element is `null`/`undefined`. -/
def convItOkE (it : JSVal α) : Except Unit Bool :=
  match getFieldE it "iteration" with
  | .error e => .error e
  | .ok n =>
    if isNum n then
      match getFieldE it "value" with
      | .error e => .error e
      | .ok v => .ok (isNum v)
    else .ok false

/-- Source `extractConvergence`: a falsy `iterations` yields no match; an
array of numbers is mapped to `{iteration: i + 1, value: v}` records with
1-based indices; otherwise an array all of whose elements have numeric
`iteration` and `value` is passed through as-is (this element check can
throw); anything else yields no match. -/
def extractConvergenceE [Semiring α] [DecidableEq α] (d : JSVal α) :
    Except Unit (Option (List (JSVal α))) :=
  match getFieldE d "iterations" with
  | .error e => .error e
  | .ok its =>
    if jsTruthy its = false then .ok none
    else
      match its with
      | .arr l =>
        if l.all isNum then
          .ok (some (l.enum.map
            (fun iv => .obj [("iteration", .num ((iv.1 + 1 : ℕ) : α)), ("value", iv.2)])))
        else
          match jsEveryE convItOkE l with
          | .error e => .error e
          | .ok true => .ok (some l)
          | .ok false => .ok none
      | _ => .ok none

/-- Source `extractODE`: `t` and `y` must both be arrays of equal length with
all-numeric elements; passed through as-is. -/
def extractODE (d : JSVal α) : Option (List (JSVal α) × List (JSVal α)) :=
  match optField d "t", optField d "y" with
  | .arr t, .arr y =>
    if t.length == y.length && t.all isNum && y.all isNum then some (t, y) else none
  | _, _ => none

/-- Result of `extractCurveFit`: `{x, y, yFit}` from the explicit-`y_fit`
case, or `{x, y, coefficients}` from the coefficient case. -/
inductive CurveFit (α : Type) where
  | withYFit (x y yfit : List (JSVal α))
  | withCoeffs (x y coeffs : List (JSVal α))

/-- Second case of `extractCurveFit`: `x`, `y` and `coefficients` all arrays
(no length or element checks). -/
def curveFitCoeffCase (d : JSVal α) : Option (CurveFit α) :=
  match optField d "x", optField d "y", optField d "coefficients" with
  | .arr xs, .arr ys, .arr cs => some (.withCoeffs xs ys cs)
  | _, _, _ => none

/-- Source `extractCurveFit`: first the explicit case (`x`, `y`, `y_fit` all
arrays with `x.length == y.length` and `y.length == y_fit.length`), then the
coefficient case. -/
def extractCurveFit (d : JSVal α) : Option (CurveFit α) :=
  match optField d "x", optField d "y", optField d "y_fit" with
  | .arr xs, .arr ys, .arr yf =>
    if xs.length == ys.length && ys.length == yf.length then some (.withYFit xs ys yf)
    else curveFitCoeffCase d
  | _, _, _ => curveFitCoeffCase d

/-! ## The render intent and the router (source lines 23-119) -/

/-- The tagged union of routing outcomes: one case per renderer invoked by
`routeVisual`, each carrying exactly the data the router hands the renderer,
plus the `unclassified` fallback for the final `showMessage`. -/
inductive RenderIntent (α : Type) where
  | lineSeries (x y : JSVal α)
  | phasor (p : JSVal α)
  | solution (s : JSVal α)
  | scalarMap (m : List (String × α))
  | indexedArray (label : String) (elems : List (JSVal α))
  | table (rows : List (JSVal α))
  | matrix (key : String) (rows : List (JSVal α))
  | complexPlane (c : ComplexOut α)
  | polynomial (coeffs : List (JSVal α)) (about : α)
  | convergence (points : List (JSVal α))
  | ode (t y : List (JSVal α))
  | curveFit (fit : CurveFit α)
  | textBlocks (blocks : List (TextBlock α))
  | unclassified

/-- The tail of `routeVisual` from CLASS A (algebraic solution) on, reached
when neither the time-series nor the phasor rule matched.  Kept as a separate
definition only to factor the proofs; `routeVisual` below glues the pieces in
source order. -/
def routeTail [Semiring α] [DecidableEq α] (cosF sinF : α → α) (d : JSVal α) :
    Except Unit (RenderIntent α) :=
  if isPlainObject (optField d "solution") then .ok (.solution (optField d "solution"))
  else if !(extractScalarMap d).isEmpty then .ok (.scalarMap (extractScalarMap d))
  else
    match asArr (optField d "voltages") with
    | some l => .ok (.indexedArray "Voltage" l)
    | none =>
      match asArr (optField d "currents") with
      | some l => .ok (.indexedArray "Current" l)
      | none =>
        match asArr (optField d "outputs") with
        | some l => .ok (.indexedArray "Output" l)
        | none =>
          match asArr (optField d "table") with
          | some rows => .ok (.table rows)
          | none =>
            match extractMatrix d with
            | some km => .ok (.matrix km.1 km.2)
            | none =>
              match extractComplexE cosF sinF d with
              | .error e => .error e
              | .ok (some c) => .ok (.complexPlane c)
              | .ok none =>
                match extractPolynomial d with
                | some ca => .ok (.polynomial ca.1 ca.2)
                | none =>
                  match extractConvergenceE d with
                  | .error e => .error e
                  | .ok (some pts) => .ok (.convergence pts)
                  | .ok none =>
                    match extractODE d with
                    | some ty => .ok (.ode ty.1 ty.2)
                    | none =>
                      match extractCurveFit d with
                      | some fit => .ok (.curveFit fit)
                      | none =>
                        if !(extractTextBlocks d).isEmpty then
                          .ok (.textBlocks (extractTextBlocks d))
                        else .ok .unclassified

/-- The CLASS 0 condition `data.samples?.x && data.samples?.y` of
`routeVisual` (JS truthiness of both optional-chained reads). -/
def samplesCond [Zero α] [DecidableEq α] (d : JSVal α) : Bool :=
  jsTruthy (optField (optField d "samples") "x")
    && jsTruthy (optField (optField d "samples") "y")

/-- The CLASS 1 condition `data.phasor?.magnitude !== undefined &&
data.phasor?.angle !== undefined` of `routeVisual`. -/
def phasorCond (d : JSVal α) : Bool :=
  !isUndef (optField (optField d "phasor") "magnitude")
    && !isUndef (optField (optField d "phasor") "angle")

/-- Source `routeVisual` (the classifier): the first property access
`data.samples` throws when the payload itself is nullish; then the rules in
source order.  CLASS 0 tests `samplesCond`; CLASS 1 tests `phasorCond`;
the rest is `routeTail`. -/
def routeVisual [Semiring α] [DecidableEq α] (cosF sinF : α → α) (d : JSVal α) :
    Except Unit (RenderIntent α) :=
  if isNullish d then .error ()
  else if samplesCond d then
    .ok (.lineSeries (optField (optField d "samples") "x") (optField (optField d "samples") "y"))
  else if phasorCond d then
    .ok (.phasor (optField d "phasor"))
  else routeTail cosF sinF d

/-- The router instantiated at `α := ℚ`.  The trig parameters are placeholders:
no rational-instantiated claim reaches the polar conversion, and the claim
about complex-case ordering quantifies over them. -/
def routeVisualQ (d : JSVal ℚ) : Except Unit (RenderIntent ℚ) :=
  routeVisual id id d

/-! ## Renderer fragment needed by the curve-fit claim -/

/-- The accumulation `yi = 0; coefficients.forEach((c, n) => yi += c * Math.pow(xi, n))`
of `renderCurveFit` (and JS has `Math.pow(x, 0) = 1` for every `x`, matching
`x ^ 0 = 1`). -/
def polyEvalAt [Semiring α] (cs : List α) (xi : α) : α :=
  cs.enum.foldl (fun yi nc => yi + nc.2 * xi ^ nc.1) 0

/-- The y-values of the `"Fit"` trace that `renderCurveFit` draws: the
explicit `yFit` array as-is, or the series synthesized from the coefficients.
The synthesis is modelled on all-numeric `x` and `coefficients` (elsewhere the
JS arithmetic would produce `NaN`s, outside the embedded fragment). -/
def curveFitFitY [Semiring α] : CurveFit α → Option (List (JSVal α))
  | .withYFit _ _ yf => some yf
  | .withCoeffs x _ cs =>
    match cs.mapM (fun c => match c with | .num v => some v | _ => none),
          x.mapM (fun xi => match xi with | .num v => some v | _ => none) with
    | some cs', some xs' => some ((xs'.map (polyEvalAt cs')).map .num)
    | _, _ => none

/-! ## General lemmas about the embedding -/

theorem lookup_eq_some_of_mem_nodup {β : Type} {fs : List (String × β)} {k : String} {v : β}
    (hmem : (k, v) ∈ fs) (hnd : (fs.map Prod.fst).Nodup) : fs.lookup k = some v := by
  induction fs with
  | nil => cases hmem
  | cons a t ih =>
    obtain ⟨k', v'⟩ := a
    simp only [List.map_cons, List.nodup_cons] at hnd
    rcases List.mem_cons.mp hmem with heq | hmem'
    · obtain ⟨rfl, rfl⟩ := Prod.mk.injEq .. ▸ heq
      simp [List.lookup]
    · have hk : k ≠ k' := by
        rintro rfl
        exact hnd.1 (List.mem_map_of_mem Prod.fst hmem')
      rw [List.lookup, beq_false_of_ne hk]
      exact ih hmem' hnd.2

theorem mem_of_lookup_eq_some {β : Type} {fs : List (String × β)} {k : String} {v : β}
    (h : fs.lookup k = some v) : (k, v) ∈ fs := by
  induction fs with
  | nil => cases h
  | cons a t ih =>
    obtain ⟨k', v'⟩ := a
    rw [List.lookup] at h
    cases hbeq : (k == k') with
    | true =>
      rw [hbeq] at h
      obtain rfl : v' = v := by injection h
      exact (eq_of_beq hbeq) ▸ List.mem_cons_self _ _
    | false =>
      rw [hbeq] at h
      exact List.mem_cons_of_mem _ (ih h)

/-- Lookup is invariant under permutation of an association list with
duplicate-free keys. -/
theorem lookup_perm {β : Type} {fs fs' : List (String × β)} (hperm : fs.Perm fs')
    (hnd : (fs.map Prod.fst).Nodup) (k : String) : fs.lookup k = fs'.lookup k := by
  have hnd' : (fs'.map Prod.fst).Nodup := ((hperm.map Prod.fst).nodup_iff).mp hnd
  cases h : fs.lookup k with
  | some v =>
    exact (lookup_eq_some_of_mem_nodup (hperm.subset (mem_of_lookup_eq_some h)) hnd').symm
  | none =>
    cases h' : fs'.lookup k with
    | none => rfl
    | some v =>
      have hcontra :=
        lookup_eq_some_of_mem_nodup (hperm.symm.subset (mem_of_lookup_eq_some h')) hnd
      rw [h] at hcontra
      cases hcontra

theorem optField_of_isNum {v : JSVal α} (h : isNum v = true) (k : String) :
    optField v k = .undefined := by
  cases v <;> simp_all [isNum, optField]

theorem optField_obj (fs : List (String × JSVal α)) (k : String) :
    optField (.obj fs) k = (fs.lookup k).getD .undefined := rfl

/-- A routing outcome produced by the tail of the router (CLASS A onwards) is
never the time-series or the phasor intent: those are produced only by the two
head rules. -/
theorem routeTail_ok_cases [Semiring α] [DecidableEq α] (cosF sinF : α → α) (d : JSVal α)
    (r : RenderIntent α) (h : routeTail cosF sinF d = .ok r) :
    (∀ x y, r ≠ .lineSeries x y) ∧ (∀ p, r ≠ .phasor p) := by
  unfold routeTail at h
  repeat' split at h
  all_goals cases h
  all_goals refine ⟨fun _ _ hc => ?_, fun _ hc => ?_⟩ <;> cases hc

/-- C5 (amended): full characterization of the time-series outcome: the
router returns a `lineSeries` intent exactly when the payload is not nullish
and `data.samples?.x && data.samples?.y` is truthy, and the intent carries
those two values passed through unvalidated (they need not be non-empty
numeric arrays of equal length). -/
theorem routeVisual_lineSeries_iff [Semiring α] [DecidableEq α] (cosF sinF : α → α)
    (d : JSVal α) (x y : JSVal α) :
    routeVisual cosF sinF d = .ok (.lineSeries x y) ↔
      isNullish d = false ∧ samplesCond d = true ∧
      x = optField (optField d "samples") "x" ∧ y = optField (optField d "samples") "y" := by
  constructor
  · intro h
    unfold routeVisual at h
    by_cases hn : isNullish d = true
    · rw [if_pos hn] at h; cases h
    · rw [if_neg hn] at h
      by_cases hs : samplesCond d = true
      · rw [if_pos hs] at h
        injection h with h
        injection h with h1 h2
        exact ⟨Bool.not_eq_true _ ▸ hn, hs, h1.symm, h2.symm⟩
      · rw [if_neg hs] at h
        by_cases hp : phasorCond d = true
        · rw [if_pos hp] at h; cases h
        · rw [if_neg hp] at h
          exact absurd rfl ((routeTail_ok_cases cosF sinF d _ h).1 x y)
  · rintro ⟨hn, hs, rfl, rfl⟩
    unfold routeVisual
    rw [hn, hs]
    rfl

/-- C6 (amended): full characterization of the phasor outcome: the router
returns a `phasor` intent exactly when the payload is not nullish, the
time-series rule does not match, and `data.phasor?.magnitude` and
`data.phasor?.angle` are both defined (regardless of their types — numericness
is not checked), and the intent carries `data.phasor` unchanged. -/
theorem routeVisual_phasor_iff [Semiring α] [DecidableEq α] (cosF sinF : α → α)
    (d : JSVal α) (p : JSVal α) :
    routeVisual cosF sinF d = .ok (.phasor p) ↔
      isNullish d = false ∧ samplesCond d = false ∧ phasorCond d = true ∧
      p = optField d "phasor" := by
  constructor
  · intro h
    unfold routeVisual at h
    by_cases hn : isNullish d = true
    · rw [if_pos hn] at h; cases h
    · rw [if_neg hn] at h
      by_cases hs : samplesCond d = true
      · rw [if_pos hs] at h; cases h
      · rw [if_neg hs] at h
        by_cases hp : phasorCond d = true
        · rw [if_pos hp] at h
          injection h with h
          injection h with h1
          exact ⟨Bool.not_eq_true _ ▸ hn, Bool.not_eq_true _ ▸ hs, hp, h1.symm⟩
        · rw [if_neg hp] at h
          exact absurd rfl ((routeTail_ok_cases cosF sinF d _ h).2 p)
  · rintro ⟨hn, hs, hp, rfl⟩
    unfold routeVisual
    rw [hn, hs, hp]
    rfl

/-- Introduction rule for the phasor outcome of the router. -/
theorem routeVisual_phasor_intro [Semiring α] [DecidableEq α] (cosF sinF : α → α)
    (d : JSVal α) (hd : isNullish d = false) (hs : samplesCond d = false)
    (hp : phasorCond d = true) :
    routeVisual cosF sinF d = .ok (.phasor (optField d "phasor")) := by
  unfold routeVisual
  rw [hd, hs, hp]
  rfl

/-- If every top-level field of a payload is either the phasor entry or holds
a numeric value, then the time-series condition is false: `data.samples` is
then absent or a number, and neither has a truthy `.x`. -/
theorem samplesCond_eq_false_of_fields [Semiring α] [DecidableEq α]
    {fs : List (String × JSVal α)} {p : JSVal α}
    (hshape : ∀ kv ∈ fs, kv = (("phasor" : String), p) ∨ isNum kv.2 = true) :
    samplesCond (JSVal.obj fs) = false := by
  unfold samplesCond
  rcases hl : fs.lookup "samples" with _ | v
  · rw [optField_obj, hl]
    rfl
  · have hmem := mem_of_lookup_eq_some hl
    rcases hshape _ hmem with heq | hnum
    · exact absurd (congrArg Prod.fst heq) (by simp)
    · rw [optField_obj, hl]
      simp only [Option.getD_some]
      rw [optField_of_isNum hnum]
      rfl

/-- If the `phasor` field holds a value whose `magnitude` and `angle` reads
are both defined, the phasor condition is true. -/
theorem phasorCond_eq_true_of_lookup {fs : List (String × JSVal α)} {p : JSVal α}
    (hl : fs.lookup "phasor" = some p)
    (hmag : isUndef (optField p "magnitude") = false)
    (hang : isUndef (optField p "angle") = false) :
    phasorCond (JSVal.obj fs) = true := by
  unfold phasorCond
  rw [optField_obj, hl]
  simp only [Option.getD_some]
  rw [hmag, hang]
  rfl

/-- Core of the phasor-precedence claim: a record payload containing the
phasor entry (with defined magnitude and angle reads), on which the earlier
time-series rule does not match, routes to the phasor intent whatever its
other fields hold. -/
theorem routeVisual_phasor_core (fs : List (String × JSVal ℚ)) (p : JSVal ℚ)
    (hmem : (("phasor" : String), p) ∈ fs)
    (hs : samplesCond (JSVal.obj fs) = false)
    (hmag : isUndef (optField p "magnitude") = false)
    (hang : isUndef (optField p "angle") = false)
    (hnd : (fs.map Prod.fst).Nodup) :
    routeVisualQ (.obj fs) = .ok (.phasor p) := by
  have hl : fs.lookup "phasor" = some p := lookup_eq_some_of_mem_nodup hmem hnd
  have h := routeVisual_phasor_intro id id (JSVal.obj fs) rfl hs
    (phasorCond_eq_true_of_lookup hl hmag hang)
  unfold routeVisualQ
  rw [h, optField_obj, hl]
  rfl

/-! ## Totality of the classifier -/

/-- The payload's `roots` value, when it is an array, has no `null`/`undefined`
elements (the shapes on which the complex extractor's element checks throw). -/
def rootsClean (d : JSVal α) : Prop :=
  ∀ rs, optField d "roots" = .arr rs → ∀ r ∈ rs, isNullish r = false

/-- The payload's `iterations` value, when it is an array, has no
`null`/`undefined` elements (the shapes on which the convergence extractor's
element checks throw). -/
def iterationsClean (d : JSVal α) : Prop :=
  ∀ l, optField d "iterations" = .arr l → ∀ it ∈ l, isNullish it = false

theorem jsEveryE_ok (p : JSVal α → Except Unit Bool) (l : List (JSVal α))
    (h : ∀ x ∈ l, ∃ b, p x = .ok b) : ∃ b, jsEveryE p l = .ok b := by
  induction l with
  | nil => exact ⟨true, rfl⟩
  | cons x xs ih =>
    obtain ⟨b, hb⟩ := h x (List.mem_cons_self _ _)
    cases b with
    | false => exact ⟨false, by rw [jsEveryE, hb]⟩
    | true =>
      obtain ⟨b', hb'⟩ := ih (fun z hz => h z (List.mem_cons_of_mem _ hz))
      exact ⟨b', by rw [jsEveryE, hb]; exact hb'⟩

theorem rootOkE_ok (r : JSVal α) (h : isNullish r = false) : ∃ b, rootOkE r = .ok b := by
  unfold rootOkE getFieldE
  rw [h]
  simp only [Bool.false_eq_true, if_false]
  split
  · exact ⟨_, rfl⟩
  · exact ⟨_, rfl⟩

theorem convItOkE_ok (it : JSVal α) (h : isNullish it = false) :
    ∃ b, convItOkE it = .ok b := by
  unfold convItOkE getFieldE
  rw [h]
  simp only [Bool.false_eq_true, if_false]
  split
  · exact ⟨_, rfl⟩
  · exact ⟨_, rfl⟩

theorem extractComplexE_ok [Mul α] (cosF sinF : α → α) (d : JSVal α)
    (hd : isNullish d = false) (hc : rootsClean d) :
    ∃ o, extractComplexE cosF sinF d = .ok o := by
  unfold extractComplexE getFieldE
  rw [hd]
  simp only [Bool.false_eq_true, if_false]
  split
  · next rs heq =>
    obtain ⟨b, hb⟩ := jsEveryE_ok rootOkE rs (fun x hx => rootOkE_ok x (hc rs heq x hx))
    rw [hb]
    cases b
    · exact ⟨_, rfl⟩
    · exact ⟨_, rfl⟩
  · exact ⟨_, rfl⟩

theorem extractConvergenceE_ok [Semiring α] [DecidableEq α] (d : JSVal α)
    (hd : isNullish d = false) (hc : iterationsClean d) :
    ∃ o, extractConvergenceE d = .ok o := by
  unfold extractConvergenceE getFieldE
  rw [hd]
  simp only [Bool.false_eq_true, if_false]
  split
  · exact ⟨_, rfl⟩
  · split
    · next l heq =>
      split
      · exact ⟨_, rfl⟩
      · obtain ⟨b, hb⟩ := jsEveryE_ok convItOkE l (fun x hx => convItOkE_ok x (hc l heq x hx))
        rw [hb]
        cases b
        · exact ⟨_, rfl⟩
        · exact ⟨_, rfl⟩
    · exact ⟨_, rfl⟩

/-- Totality of the tail of the router on clean payloads. -/
theorem routeTail_ok [Semiring α] [DecidableEq α] (cosF sinF : α → α) (d : JSVal α)
    (hd : isNullish d = false) (hr : rootsClean d) (hi : iterationsClean d) :
    ∃ r, routeTail cosF sinF d = .ok r := by
  obtain ⟨oc, hoc⟩ := extractComplexE_ok cosF sinF d hd hr
  obtain ⟨ov, hov⟩ := extractConvergenceE_ok d hd hi
  unfold routeTail
  rw [hoc, hov]
  repeat' split
  all_goals first
    | exact ⟨_, rfl⟩
    | simp_all

theorem isNullish_false_of_optField {d : JSVal α} {k : String}
    (h : optField d k ≠ .undefined) : isNullish d = false := by
  cases d <;> first | rfl | exact absurd rfl h

/-- Case 1 of the convergence extractor, in general: a numeric `iterations`
array is mapped to records with 1-based sequential indices. -/
theorem extractConvergenceE_all_num (d : JSVal ℚ) (l : List (JSVal ℚ))
    (hl : optField d "iterations" = .arr l) (hall : l.all isNum = true) :
    extractConvergenceE d = .ok (some (l.enum.map (fun iv =>
      .obj [("iteration", .num ((iv.1 + 1 : ℕ) : ℚ)), ("value", iv.2)]))) := by
  have hd : isNullish d = false := by
    refine isNullish_false_of_optField (k := "iterations") ?_
    rw [hl]
    intro hc
    cases hc
  unfold extractConvergenceE getFieldE
  rw [hd]
  simp only [Bool.false_eq_true, if_false]
  rw [hl]
  simp [jsTruthy, hall]

/-! ## Claim theorems -/

/-- C1 (counterexample): the payload `{iterations: [null]}` makes the
classifier throw a `TypeError`: case 1 of the convergence extractor rejects
the array (a `null` element is not a number), and case 2's element check then
reads `it.iteration` on the `null` element.  This refutes the claim that the
classifier never throws on record payloads. -/
theorem classify_throws_on_null_iteration_element :
    routeVisualQ (.obj [("iterations", .arr [.null])]) = .error () := rfl

/-- C1 (amended): for every record payload whose `roots` and `iterations`
values, when they are arrays, contain no `null`/`undefined` elements, the
classifier terminates without throwing and returns exactly one of the defined
render intents or the unclassified fallback. -/
theorem classify_total_on_clean_payloads (fs : List (String × JSVal ℚ))
    (hr : rootsClean (JSVal.obj fs)) (hi : iterationsClean (JSVal.obj fs)) :
    ∃ r, routeVisualQ (.obj fs) = .ok r := by
  unfold routeVisualQ routeVisual
  simp only [isNullish, Bool.false_eq_true, if_false]
  split
  · exact ⟨_, rfl⟩
  · split
    · exact ⟨_, rfl⟩
    · exact routeTail_ok id id _ rfl hr hi

theorem classify_total_on_clean_payloads_w :
    ∃ r, routeVisualQ (.obj []) = .ok r :=
  classify_total_on_clean_payloads [] (fun _ h => nomatch h) (fun _ h => nomatch h)

/-- C2 (counterexample): a payload that contains both a `phasor` record with
magnitude and angle fields and an unrelated top-level numeric key (`freq`)
can still classify as something other than a phasor: if it also carries a
`samples` record with truthy `x` and `y`, the time-series rule (CLASS 0)
fires first and the router returns the line-series intent.  This refutes the
claim's universal statement as frozen. -/
theorem phasor_loses_to_time_series :
    routeVisualQ (.obj [("samples", .obj [("x", .num 1), ("y", .num 1)]),
                        ("phasor", .obj [("magnitude", .num 1), ("angle", .num 0)]),
                        ("freq", .num 5)]) =
      .ok (.lineSeries (.num 1) (.num 1)) := rfl

/-- C2 (amended): for every payload that contains a `phasor` record with
defined magnitude and angle reads and at least one unrelated top-level
numeric key, and on which the earlier time-series rule does not match
(`data.samples?.x && data.samples?.y` is not truthy), classification yields
the phasor intent — the phasor rule precedes the scalar-map rule — and the
result is the same for every insertion order of the payload's keys. -/
theorem phasor_beats_scalar_keys (fs : List (String × JSVal ℚ)) (p : JSVal ℚ)
    (hmem : (("phasor" : String), p) ∈ fs)
    (hmag : isUndef (optField p "magnitude") = false)
    (hang : isUndef (optField p "angle") = false)
    (hscalar : ∃ kv ∈ fs, kv.1 ≠ "phasor" ∧ isNum kv.2 = true)
    (hs : samplesCond (JSVal.obj fs) = false)
    (hnd : (fs.map Prod.fst).Nodup) :
    routeVisualQ (.obj fs) = .ok (.phasor p) ∧
      ∀ fs', fs.Perm fs' → routeVisualQ (.obj fs') = .ok (.phasor p) := by
  refine ⟨routeVisual_phasor_core fs p hmem hs hmag hang hnd, fun fs' hperm => ?_⟩
  have hnd' : (fs'.map Prod.fst).Nodup := ((hperm.map Prod.fst).nodup_iff).mp hnd
  have hlk : fs'.lookup "samples" = fs.lookup "samples" :=
    (lookup_perm hperm hnd "samples").symm
  have hs' : samplesCond (JSVal.obj fs') = false := by
    unfold samplesCond at hs ⊢
    rw [optField_obj, hlk, ← optField_obj]
    exact hs
  exact routeVisual_phasor_core fs' p (hperm.subset hmem) hs' hmag hang hnd'

theorem phasor_beats_scalar_keys_w :
    routeVisualQ (.obj [("phasor", .obj [("magnitude", .num 3), ("angle", .num 1)]),
                        ("frequency", .num 7)]) =
      .ok (.phasor (.obj [("magnitude", .num 3), ("angle", .num 1)])) ∧
    routeVisualQ (.obj [("frequency", .num 7),
                        ("phasor", .obj [("magnitude", .num 3), ("angle", .num 1)])]) =
      .ok (.phasor (.obj [("magnitude", .num 3), ("angle", .num 1)])) := by
  have h := phasor_beats_scalar_keys
    [("phasor", .obj [("magnitude", .num 3), ("angle", .num 1)]), ("frequency", .num 7)]
    (.obj [("magnitude", .num 3), ("angle", .num 1)])
    (List.mem_cons_self _ _)
    rfl rfl
    ⟨("frequency", .num 7), List.mem_cons_of_mem _ (List.mem_cons_self _ _),
      by decide, rfl⟩
    rfl
    (by decide)
  exact ⟨h.1, h.2 _ (List.Perm.swap _ _ _)⟩

/-- C3 (counterexample): the payload `{x:[0,1,2], y:[1,3,5], coefficients:[1,2]}`
does not classify as a curve fit: the polynomial rule (CLASS D three-quarters)
precedes the curve-fit rule (CLASS D tenth) and already matches on the
all-numeric `coefficients` array, so the router returns the polynomial
intent. -/
theorem curvefit_payload_routes_to_polynomial :
    routeVisualQ (.obj [("x", .arr [.num 0, .num 1, .num 2]),
                        ("y", .arr [.num 1, .num 3, .num 5]),
                        ("coefficients", .arr [.num 1, .num 2])]) =
      .ok (.polynomial [.num 1, .num 2] 0) := rfl

/-- C3 (amended): the curve-fit extractor applied directly to
`{x:[0,1,2], y:[1,3,5], coefficients:[1,2]}` yields a coefficient fit whose
synthesized fitted series is `[1,3,5]` (the linear polynomial `1 + 2x`
evaluated at each x), equal to the fitted series of the explicit-`y_fit` path,
and the explicit-`y_fit` payload does route to the curve-fit intent. -/
theorem curveFit_synthesis_matches_explicit :
    extractCurveFit (.obj [("x", .arr [.num (0:ℚ), .num 1, .num 2]),
                           ("y", .arr [.num 1, .num 3, .num 5]),
                           ("coefficients", .arr [.num 1, .num 2])]) =
      some (.withCoeffs [.num 0, .num 1, .num 2] [.num 1, .num 3, .num 5]
        [.num 1, .num 2]) ∧
    routeVisualQ (.obj [("x", .arr [.num 0, .num 1, .num 2]),
                        ("y", .arr [.num 1, .num 3, .num 5]),
                        ("y_fit", .arr [.num 1, .num 3, .num 5])]) =
      .ok (.curveFit (.withYFit [.num 0, .num 1, .num 2] [.num 1, .num 3, .num 5]
        [.num 1, .num 3, .num 5])) ∧
    curveFitFitY (.withCoeffs [.num (0:ℚ), .num 1, .num 2] [.num 1, .num 3, .num 5]
        [.num 1, .num 2]) =
      some [.num 1, .num 3, .num 5] ∧
    curveFitFitY (.withYFit [.num (0:ℚ), .num 1, .num 2] [.num 1, .num 3, .num 5]
        [.num 1, .num 3, .num 5]) =
      some [.num 1, .num 3, .num 5] := by
  refine ⟨rfl, rfl, ?_, rfl⟩
  simp only [curveFitFitY, List.mapM, List.mapM.loop, List.map]
  norm_num [polyEvalAt, List.enum, List.enumFrom, List.foldl]

/-- C4 (counterexample): `about` is a reserved key of the spec, yet a payload
whose only numeric top-level key is `about` classifies as a scalar map: the
extractor's ignore list is only `["topic", "samples", "phasor"]`. -/
theorem reserved_key_about_classifies_scalar :
    routeVisualQ (.obj [("about", .num 5)]) = .ok (.scalarMap [("about", 5)]) := rfl

/-- Helper for the amended C4: any single-field payload carrying a number
under a key outside the actual ignore list classifies as a scalar map. -/
theorem routeVisualQ_single_num (k : String) (q : ℚ)
    (hk : k ∉ (["topic", "samples", "phasor"] : List String)) :
    routeVisualQ (.obj [(k, .num q)]) = .ok (.scalarMap [(k, q)]) := by
  have hkp : k ≠ "phasor" := by
    intro h
    exact hk (by rw [h]; simp)
  have hsC : samplesCond (JSVal.obj [(k, JSVal.num q)]) = false :=
    samplesCond_eq_false_of_fields (p := JSVal.undefined)
      (by intro kv hkv
          rcases List.mem_cons.mp hkv with rfl | h
          · exact Or.inr rfl
          · cases h)
  have hpC : phasorCond (JSVal.obj [(k, JSVal.num q)]) = false := by
    unfold phasorCond
    rw [optField_obj, List.lookup, beq_false_of_ne (Ne.symm hkp)]
    rfl
  have hsm : extractScalarMap (JSVal.obj [(k, JSVal.num q)]) = [(k, q)] := by
    have hk' : ¬(k = "topic" ∨ k = "samples" ∨ k = "phasor") := by simpa using hk
    simp [extractScalarMap, jsEntries, hk']
  have hsol : isPlainObject (optField (JSVal.obj [(k, JSVal.num q)]) "solution") = false := by
    rw [optField_obj, List.lookup]
    rcases eq_or_ne ("solution" : String) k with heq | hne
    · subst heq
      rfl
    · rw [beq_false_of_ne hne]
      rfl
  unfold routeVisualQ routeVisual
  rw [hsC, hpC]
  simp only [isNullish, Bool.false_eq_true, if_false]
  unfold routeTail
  rw [hsol]
  simp only [Bool.false_eq_true, if_false]
  rw [hsm]
  rfl

/-- C4 (amended): the scalar-map extractor's blocklist is exactly
`["topic", "samples", "phasor"]`: those keys never appear in an extracted
scalar map, while a payload whose only (numeric) key is any other reserved
key of the spec, such as `about`, `frequency` or `magnitude`, does classify
as a scalar map carrying that key. -/
theorem scalarMap_blocklist_exact :
    (∀ (d : JSVal ℚ) (k : String), k ∈ (["topic", "samples", "phasor"] : List String) →
      k ∉ (extractScalarMap d).map Prod.fst) ∧
    (∀ (k : String) (q : ℚ), k ∉ (["topic", "samples", "phasor"] : List String) →
      routeVisualQ (.obj [(k, .num q)]) = .ok (.scalarMap [(k, q)])) := by
  refine ⟨?_, fun k q hk => routeVisualQ_single_num k q hk⟩
  intro d k hk hmem
  rcases List.mem_map.mp hmem with ⟨kv', hkv', rfl⟩
  rcases List.mem_filterMap.mp hkv' with ⟨kv, _, hsome⟩
  by_cases hin : kv.1 ∈ (["topic", "samples", "phasor"] : List String)
  · rw [if_pos hin] at hsome
    cases hsome
  · rw [if_neg hin] at hsome
    split at hsome
    · injection hsome with h
      rw [← h] at hk
      exact hin hk
    · cases hsome

theorem scalarMap_blocklist_exact_w :
    (("topic" : String) ∈ (["topic", "samples", "phasor"] : List String) ∧
      ("topic" : String) ∉ (extractScalarMap (JSVal.obj [("topic", JSVal.num (1:ℚ))])).map Prod.fst) ∧
    (("frequency" : String) ∉ (["topic", "samples", "phasor"] : List String) ∧
      routeVisualQ (.obj [("frequency", .num 7)]) = .ok (.scalarMap [("frequency", 7)])) :=
  ⟨⟨by decide, scalarMap_blocklist_exact.1 _ "topic" (by decide)⟩,
   ⟨by decide, scalarMap_blocklist_exact.2 "frequency" 7 (by decide)⟩⟩

/-- C5 (counterexample): the time-series rule matches a payload whose
`samples.x` and `samples.y` are plain numbers (truthy, but not non-empty
numeric arrays), and the produced intent carries those non-array values. -/
theorem timeSeries_matches_non_array_samples :
    routeVisualQ (.obj [("samples", .obj [("x", .num 1), ("y", .num 1)])]) =
      .ok (.lineSeries (.num 1) (.num 1)) := rfl

theorem routeVisual_lineSeries_iff_w :
    routeVisualQ (.obj [("samples", .obj [("x", .num 1), ("y", .num 2)])]) =
      .ok (.lineSeries (.num 1) (.num 2)) :=
  (routeVisual_lineSeries_iff id id _ _ _).mpr ⟨rfl, rfl, rfl, rfl⟩

/-- C6 (counterexample): a payload whose phasor magnitude is a string (not a
number) still classifies as a phasor intent: the router only tests the two
reads against `undefined`. -/
theorem phasor_matches_string_magnitude :
    routeVisualQ (.obj [("phasor", .obj [("magnitude", .str "ten"), ("angle", .num 0)])]) =
      .ok (.phasor (.obj [("magnitude", .str "ten"), ("angle", .num 0)])) := rfl

theorem routeVisual_phasor_iff_w :
    routeVisualQ (.obj [("phasor", .obj [("magnitude", .num 3), ("angle", .num 0)])]) =
      .ok (.phasor (.obj [("magnitude", .num 3), ("angle", .num 0)])) :=
  (routeVisual_phasor_iff id id _ _).mpr ⟨rfl, rfl, rfl, rfl⟩

/-- C7: the payload `{topic: "rlc", resistance: 10, reactance: 5}` classifies
as a scalar map carrying exactly `resistance` and `reactance` in insertion
order, with `topic` excluded. -/
theorem topic_excluded_scalar_map :
    routeVisualQ (.obj [("topic", .str "rlc"), ("resistance", .num 10), ("reactance", .num 5)]) =
      .ok (.scalarMap [("resistance", 10), ("reactance", 5)]) := rfl

/-- C8: `{iterations: [5, 2, 0.1]}` classifies as a convergence trace with
points `(1,5), (2,2), (3,0.1)`; and in general, for every payload whose
`iterations` key holds an all-numeric array, the extractor assigns 1-based
sequential iteration indices to the raw values in order. -/
theorem convergence_one_based_indices :
    routeVisualQ (.obj [("iterations", .arr [.num 5, .num 2, .num 0.1])]) =
      .ok (.convergence [.obj [("iteration", .num 1), ("value", .num 5)],
                         .obj [("iteration", .num 2), ("value", .num 2)],
                         .obj [("iteration", .num 3), ("value", .num 0.1)]]) ∧
    ∀ (d : JSVal ℚ) (l : List (JSVal ℚ)),
      optField d "iterations" = .arr l → l.all isNum = true →
      extractConvergenceE d = .ok (some (l.enum.map (fun iv =>
        .obj [("iteration", .num ((iv.1 + 1 : ℕ) : ℚ)), ("value", iv.2)]))) :=
  ⟨rfl, extractConvergenceE_all_num⟩

theorem convergence_one_based_indices_w :
    extractConvergenceE (JSVal.obj [("iterations", JSVal.arr [JSVal.num (5:ℚ), JSVal.num 2])]) =
      .ok (some [JSVal.obj [("iteration", JSVal.num 1), ("value", JSVal.num 5)],
                 JSVal.obj [("iteration", JSVal.num 2), ("value", JSVal.num 2)]]) :=
  convergence_one_based_indices.2
    (JSVal.obj [("iterations", JSVal.arr [JSVal.num (5:ℚ), JSVal.num 2])])
    [JSVal.num 5, JSVal.num 2] rfl rfl

/-- C9: whenever the complex extractor reaches the polar case (the roots case
does not fire, the rectangular pair is not both-numeric, and `modulus` and
`argument` are numbers), the produced intent is the rectangular number with
`real = modulus * cos(argument)` and `imag = modulus * sin(argument)`. -/
theorem polar_converted_to_rectangular (d : JSVal ℝ) (m a : ℝ)
    (hroots : ∀ rs, optField d "roots" = .arr rs → jsEveryE rootOkE rs = .ok false)
    (hrect : (isNum (optField d "real") && isNum (optField d "imag")) = false)
    (hm : optField d "modulus" = .num m) (ha : optField d "argument" = .num a) :
    extractComplexE Real.cos Real.sin d =
      .ok (some (.single (m * Real.cos a) (m * Real.sin a))) := by
  have hd : isNullish d = false := by
    refine isNullish_false_of_optField (k := "modulus") ?_
    rw [hm]
    intro hc
    cases hc
  have hcr : complexRest Real.cos Real.sin d =
      some (.single (m * Real.cos a) (m * Real.sin a)) := by
    unfold complexRest
    split
    · next r i hre him =>
      rw [hre, him] at hrect
      simp [isNum] at hrect
    · rw [hm, ha]
  unfold extractComplexE getFieldE
  rw [hd]
  simp only [Bool.false_eq_true, if_false]
  split
  · next rs heq =>
    rw [hroots rs heq, hcr]
  · rw [hcr]

theorem polar_converted_to_rectangular_w :
    extractComplexE Real.cos Real.sin (.obj [("modulus", .num 2), ("argument", .num 0)]) =
      .ok (some (.single 2 0)) ∧
    extractComplexE Real.cos Real.sin
        (.obj [("modulus", .num 1), ("argument", .num (Real.pi / 2))]) =
      .ok (some (.single 0 1)) := by
  constructor
  · have h := polar_converted_to_rectangular
      (.obj [("modulus", .num 2), ("argument", .num 0)]) 2 0
      (fun _ hc => nomatch hc) rfl rfl rfl
    rw [Real.cos_zero, Real.sin_zero, mul_one, mul_zero] at h
    exact h
  · have h := polar_converted_to_rectangular
      (.obj [("modulus", .num 1), ("argument", .num (Real.pi / 2))]) 1 (Real.pi / 2)
      (fun _ hc => nomatch hc) rfl rfl rfl
    rw [Real.cos_pi_div_two, Real.sin_pi_div_two, mul_zero, mul_one] at h
    exact h

/-- C10: inside the complex extractor the cases are tried in the order roots
array, rectangular, polar: a valid roots array wins over everything, and for
a payload with no roots array but both a numeric `real`/`imag` pair and a
numeric `modulus`/`argument` pair, the produced intent carries `real`/`imag`
untransformed and the polar fields (and the trig functions) are ignored. -/
theorem complex_case_order :
    (∀ (cosF sinF : ℚ → ℚ) (d : JSVal ℚ) (rs : List (JSVal ℚ)),
        optField d "roots" = .arr rs → jsEveryE rootOkE rs = .ok true →
        extractComplexE cosF sinF d = .ok (some (.roots rs))) ∧
    (∀ (cosF sinF : ℚ → ℚ) (d : JSVal ℚ) (r i m a : ℚ),
        (∀ rs, optField d "roots" ≠ .arr rs) →
        optField d "real" = .num r → optField d "imag" = .num i →
        optField d "modulus" = .num m → optField d "argument" = .num a →
        extractComplexE cosF sinF d = .ok (some (.single r i))) := by
  constructor
  · intro cosF sinF d rs h1 h2
    have hd : isNullish d = false := by
      refine isNullish_false_of_optField (k := "roots") ?_
      rw [h1]
      intro hc
      cases hc
    unfold extractComplexE getFieldE
    rw [hd]
    simp only [Bool.false_eq_true, if_false]
    split
    · next rs' heq =>
      rw [h1] at heq
      injection heq with heq
      subst heq
      rw [h2]
    · next hne => exact absurd h1 (hne rs)
  · intro cosF sinF d r i m a hroots hre him _ _
    have hd : isNullish d = false := by
      refine isNullish_false_of_optField (k := "real") ?_
      rw [hre]
      intro hc
      cases hc
    have hcr : complexRest cosF sinF d = some (.single r i) := by
      unfold complexRest
      rw [hre, him]
    unfold extractComplexE getFieldE
    rw [hd]
    simp only [Bool.false_eq_true, if_false]
    rw [hcr]

theorem complex_case_order_w :
    extractComplexE id id (.obj [("real", .num (1:ℚ)), ("imag", .num 2),
                                 ("modulus", .num 3), ("argument", .num 4)]) =
      .ok (some (.single 1 2)) :=
  complex_case_order.2 id id _ 1 2 3 4 (fun _ hc => nomatch hc) rfl rfl rfl rfl

end Visuals
